import Mathlib

/-!
Verification of the DBVersioning version-graph resolution and transition engine.

The development shallowly embeds the code of `DBVersioning/__init__.py`:

* `StateVersion` embeds the `StateVersion` class hierarchy: each subclass is a
  node of a singly-linked-backward chain carrying a `STATE` (modelled as a
  numeric state-descriptor id), a `VERSION` (the third-party `DotVersion` is an
  opaque totally ordered value; the engine only ever compares versions, so it
  is modelled by its order type `Nat`) and an optional `PREVIOUSVERSION`.
  Chains whose links have a different `State` are rejected by the
  `previous_version` classproperty at traversal time, so the engine's domain is
  the same-state chains; theorems carry that hypothesis explicitly.
* `DBState` embeds the mutable world threaded through the engine: the storage
  version markers managed by the `DBInterface` (a Python dict-like table,
  modelled as an association list, as in `sqlite.py`'s `__states` table), the
  ordered log of the caller-supplied opaque `apply_upgrade`/`apply_rollback`
  actions that the engine invoked, and the count of Python warnings emitted.
* Exceptions are modelled by an error value threaded alongside the state: a
  raised exception aborts the rest of the call but keeps all side effects
  already performed, exactly like Python exception propagation.
-/

namespace DBVersioning

/-- One invocation of a caller-supplied action. `up state before version`
records that the `apply_upgrade` action of the chain node `version` for state
`state` ran while the storage marker for `state` read `before`; by the storage
convention (the `set_version` calls of `sqlite.py` and the examples) the action
leaves the marker at `version`. `down state version` records the
`apply_rollback` action of node `version`. -/
inductive Ev where
  | up (state : Nat) (before : Option Nat) (version : Nat)
  | down (state : Nat) (version : Nat)
deriving DecidableEq, Repr

/-- First-match lookup in an association list (Python `dict` read /
`check_version` row scan). -/
def lookupA {α : Type} : List (Nat × α) → Nat → Option α
  | [], _ => none
  | (k', v') :: t, k => if k' = k then some v' else lookupA t k

/-- Update-or-append in an association list (Python `dict` write / the
`INSERT ... ON CONFLICT DO UPDATE` of `sqlite.py`). -/
def setA {α : Type} : List (Nat × α) → Nat → α → List (Nat × α)
  | [], k, v => [(k, v)]
  | (k', v') :: t, k, v => if k' = k then (k, v) :: t else (k', v') :: setA t k v

/-- Key removal from an association list (Python `del d[k]` / the `DELETE`
of `sqlite.py`). -/
def delA {α : Type} : List (Nat × α) → Nat → List (Nat × α)
  | [], _ => []
  | (k', v') :: t, k => if k' = k then t else (k', v') :: delA t k

/-- The world the engine mutates: the per-state installed-version markers kept
by the storage (`DBInterface`), the log of opaque actions invoked, and the
number of Python warnings emitted so far. -/
structure DBState where
  installed : List (Nat × Nat)
  log : List Ev
  warns : Nat
deriving DecidableEq, Repr

/-- `DBInterface.check_version`: the storage-reported installed version of a
state, or `none` when the state was never installed. -/
def check_version (db : DBState) (state : Nat) : Option Nat :=
  lookupA db.installed state

/-- A `StateVersion` subclass: `base state version` has `PREVIOUSVERSION =
None` (`is_base_verison` true), `node state version previous` links back to its
predecessor subclass. -/
inductive StateVersion where
  | base (state : Nat) (version : Nat)
  | node (state : Nat) (version : Nat) (previous : StateVersion)
deriving DecidableEq, Repr

/-- The `state` classproperty (the `STATE` descriptor, by identity). -/
def StateVersion.state : StateVersion → Nat
  | .base s _ => s
  | .node s _ _ => s

/-- The `version` classproperty. -/
def StateVersion.version : StateVersion → Nat
  | .base _ v => v
  | .node _ v _ => v

/-- The `previous_version` classproperty: `none` when `PREVIOUSVERSION` is
unset. -/
def StateVersion.previous : StateVersion → Option StateVersion
  | .base _ _ => none
  | .node _ _ p => some p

/-- The `is_base_verison` classproperty (spelled as in the source). -/
def StateVersion.is_base_verison (sv : StateVersion) : Bool :=
  sv.previous.isNone

/-- The caller-supplied opaque `apply_upgrade` action of a node, under the
storage convention of §6 of the spec and of `sqlite.py` / `TestExample.py`:
it performs its schema work (logged) and ends by `set_version(cls)`, leaving
the storage marker of its state at its own version. -/
def apply_upgrade (cls : StateVersion) (db : DBState) : DBState :=
  { installed := setA db.installed cls.state cls.version
    log := db.log ++ [Ev.up cls.state (lookupA db.installed cls.state) cls.version]
    warns := db.warns }

/-- The caller-supplied opaque `apply_rollback` action of a node, under the
same storage convention: it performs its schema work (logged) and ends by
`set_version(previous)` — or `remove_version(state)` when the node is the base
version. -/
def apply_rollback (cls : StateVersion) (db : DBState) : DBState :=
  { installed :=
      match cls.previous with
      | some p => setA db.installed cls.state p.version
      | none => delA db.installed cls.state
    log := db.log ++ [Ev.down cls.state cls.version]
    warns := db.warns }

/-- The Python exceptions the embedded code can raise. The spec's abstract
error taxonomy maps onto them as noted on each constructor. -/
inductive Err where
  /-- `AttributeError("Cannot upgrade to a lesser version (see
  StateVersion.rollback)")` raised by `StateVersion.upgrade`; the spec's
  `UpgradeToLesserVersionError`. -/
  | attributeErrorLesserVersion
  /-- `TypeError` raised by evaluating `from_version < cls.previous_version`
  when `previous_version` is `None`: `Version.__lt__` returns `NotImplemented`
  (looking up `None.version` raises `AttributeError`, which it catches) and
  `NoneType` defines no reflected ordering, so Python raises `TypeError`. -/
  | typeErrorNoneComparison
  /-- `utilities.VersionNotFoundError`, raised by `find_previous_version` and
  re-raised by `register_versions`; the spec's `VersionNotFoundError`. -/
  | versionNotFoundError
  /-- `utilities.RollbackError` raised by `register_versions` when
  `rollback_warnings` is disabled; the spec's `RollbackRequiredError`. -/
  | rollbackError
  /-- `KeyError` raised by `self._states[state]` in `VersionManager.rollback`
  when the state has no active registration; the spec's
  `UnregisteredStateError`. -/
  | keyError
  /-- `TypeError` raised by `self.register_versions(*versions)` in
  `VersionManager.__init__` when `versions` keeps its default `None`
  (argument after * must be an iterable). -/
  | typeErrorNoneUnpack
deriving DecidableEq, Repr

/-- `StateVersion.upgrade(cls, dbinterface, from_version)`. The returned pair
is the world after the call together with the exception it raised, if any
(`none` = returned normally). Side effects performed before a raise are kept.

Source control flow (`__init__.py:237-265`):
* `from_version` absent: recurse on the previous version (when not the base
  version) with `None`, then `apply_upgrade`;
* `from_version > cls`: raise the lesser-version `AttributeError`;
* `from_version == cls`: return without doing anything;
* otherwise evaluate `from_version < cls.previous_version` — a `TypeError`
  when `previous_version` is `None` — recursing first when it holds, and then
  `apply_upgrade`. -/
def StateVersion.upgrade : StateVersion → Option Nat → DBState → DBState × Option Err
  | cls@(.base _ _), none, db => (apply_upgrade cls db, none)
  | cls@(.node _ _ p), none, db =>
    match StateVersion.upgrade p none db with
    | (db', some e) => (db', some e)
    | (db', none) => (apply_upgrade cls db', none)
  | cls@(.base _ _), some v, db =>
    if cls.version < v then (db, some .attributeErrorLesserVersion)
    else if v = cls.version then (db, none)
    else (db, some .typeErrorNoneComparison)
  | cls@(.node _ _ p), some v, db =>
    if cls.version < v then (db, some .attributeErrorLesserVersion)
    else if v = cls.version then (db, none)
    else if v < p.version then
      match StateVersion.upgrade p (some v) db with
      | (db', some e) => (db', some e)
      | (db', none) => (apply_upgrade cls db', none)
    else (apply_upgrade cls db, none)

/-- `StateVersion.rollback(cls, dbinterface)`: apply the node's own rollback
action, then return `cls.previous_version`. -/
def StateVersion.rollback (cls : StateVersion) (db : DBState) :
    DBState × Option StateVersion :=
  (apply_rollback cls db, cls.previous)

/-- `StateVersion.find_previous_version(cls, versionnumber)`: walk the
predecessor chain for a node whose version equals `versionnumber`;
`VersionNotFoundError` when the chain is exhausted. -/
def StateVersion.find_previous_version : StateVersion → Nat → Except Err StateVersion
  | .base _ _, _ => .error .versionNotFoundError
  | .node _ _ p, vn =>
    if p.version = vn then .ok p else StateVersion.find_previous_version p vn

/-- The chain of a node: all its transitive predecessors, base first, the node
itself last. -/
def StateVersion.chain : StateVersion → List StateVersion
  | .base s v => [.base s v]
  | .node s v p => StateVersion.chain p ++ [.node s v p]

/-- The versions along a node's chain, base first. -/
def chainVersions (sv : StateVersion) : List Nat :=
  sv.chain.map StateVersion.version

/-- A chain has strictly ascending versions: every link's predecessor has a
strictly smaller version. -/
def StateVersion.isAsc : StateVersion → Bool
  | .base _ _ => true
  | .node _ v p => decide (p.version < v) && StateVersion.isAsc p

/-- Every link of the chain carries the same state descriptor (the
`previous_version` classproperty raises `ValueError` otherwise, so the engine
only runs on such chains). -/
def StateVersion.isSameState : StateVersion → Bool
  | .base _ _ => true
  | .node s _ p => decide (StateVersion.state p = s) && StateVersion.isSameState p

/-- The versions of the upgrade actions among a list of logged events, in
order. -/
def upVersions : List Ev → List Nat
  | [] => []
  | Ev.up _ _ v :: t => v :: upVersions t
  | Ev.down _ _ :: t => upVersions t

/-- The upgrade events an in-chain upgrade from `v` produces: one `Ev.up` per
chain node of version strictly above `v`, base-most first, each recording that
the action ran on top of exactly its node's immediate predecessor's version. -/
def upEventsFrom : StateVersion → Nat → List Ev
  | .base _ _, _ => []
  | .node s ver p, v =>
    if v < ver then upEventsFrom p v ++ [Ev.up s (some (StateVersion.version p)) ver]
    else []

/-- The `VersionManager` (the spec's Registry): the `rollback_warnings` flag
and the `_states` dict mapping each state descriptor to its currently active
`StateVersion`. (The `dbinterface` reference is the threaded `DBState`; the
`deprication_warnings` flag is stored but never read by the embedded code.) -/
structure VersionManager where
  rollback_warnings : Bool
  _states : List (Nat × StateVersion)
deriving DecidableEq, Repr

/-- One iteration of the loop body of `VersionManager.register_versions`
(`__init__.py:97-115`) for a single `version` node: query `check_version`; on a
greater registered node locate the installed version in the chain
(`VersionNotFoundError` when absent, re-raised with a message) and upgrade from
it; on a lesser node warn (`rollback_warnings`, the default) or raise
`RollbackError`; on an equal node do nothing; on no current version upgrade
from `None`; finally record the node in `_states`. -/
def VersionManager.register_step (vm : VersionManager) (db : DBState)
    (version : StateVersion) : VersionManager × DBState × Option Err :=
  match check_version db version.state with
  | some currentversion =>
    if currentversion < version.version then
      match version.find_previous_version currentversion with
      | .error _ => (vm, db, some .versionNotFoundError)
      | .ok previous_version =>
        match version.upgrade (some previous_version.version) db with
        | (db', some e) => (vm, db', some e)
        | (db', none) =>
          ({ vm with _states := setA vm._states version.state version }, db', none)
    else if version.version < currentversion then
      if vm.rollback_warnings then
        ({ vm with _states := setA vm._states version.state version },
          { db with warns := db.warns + 1 }, none)
      else (vm, db, some .rollbackError)
    else ({ vm with _states := setA vm._states version.state version }, db, none)
  | none =>
    match version.upgrade none db with
    | (db', some e) => (vm, db', some e)
    | (db', none) =>
      ({ vm with _states := setA vm._states version.state version }, db', none)

/-- `VersionManager.register_versions(self, *versions)`: process the supplied
nodes in order; a raise aborts the rest of the loop, keeping the effects of
the iterations already completed. -/
def VersionManager.register_versions :
    VersionManager → DBState → List StateVersion → VersionManager × DBState × Option Err
  | vm, db, [] => (vm, db, none)
  | vm, db, version :: rest =>
    match vm.register_step db version with
    | (vm', db', some e) => (vm', db', some e)
    | (vm', db', none) => VersionManager.register_versions vm' db' rest

/-- `VersionManager.rollback(self, state)` (`__init__.py:117-140`) for a valid
state argument: `self._states[state]` (a `KeyError` when unregistered), call
`rollback` on the registered node, delete the entry when it returned `None`
and re-point it at the returned node otherwise. -/
def VersionManager.rollback (vm : VersionManager) (db : DBState) (state : Nat) :
    VersionManager × DBState × Option Err :=
  match lookupA vm._states state with
  | none => (vm, db, some .keyError)
  | some stateversion =>
    match stateversion.rollback db with
    | (db', none) => ({ vm with _states := delA vm._states state }, db', none)
    | (db', some result) =>
      ({ vm with _states := setA vm._states state result }, db', none)

/-- `VersionManager.__init__(self, dbinterface, versions = None, ...)`: store
the flags, set `_states = {}`, then unconditionally run
`self.register_versions(*versions)` — a `TypeError` when `versions` kept its
default `None`, since `*None` is not unpackable. The result is the constructed
manager (`none` when `__init__` raised, aborting construction), the world, and
the exception if any. -/
def VersionManager.init (rollback_warnings : Bool)
    (versions : Option (List StateVersion)) (db : DBState) :
    Option VersionManager × DBState × Option Err :=
  match versions with
  | none => (none, db, some .typeErrorNoneUnpack)
  | some vs =>
    match VersionManager.register_versions ⟨rollback_warnings, []⟩ db vs with
    | (_, db', some e) => (none, db', some e)
    | (vm, db', none) => (some vm, db', none)

/-! Helper lemmas about the association-list storage table. -/

theorem lookupA_setA_self {α : Type} (m : List (Nat × α)) (k : Nat) (v : α) :
    lookupA (setA m k v) k = some v := by
  induction m with
  | nil => simp [setA, lookupA]
  | cons h t ih =>
    obtain ⟨k', v'⟩ := h
    by_cases hk : k' = k
    · simp [setA, lookupA, hk]
    · simp [setA, lookupA, hk, ih]

theorem setA_setA {α : Type} (m : List (Nat × α)) (k : Nat) (a b : α) :
    setA (setA m k a) k b = setA m k b := by
  induction m with
  | nil => simp [setA]
  | cons h t ih =>
    obtain ⟨k', v'⟩ := h
    by_cases hk : k' = k
    · simp [setA, hk]
    · simp [setA, hk, ih]

/-! Helper lemmas about chains and logged traces. -/

theorem version_base (s v : Nat) : (StateVersion.base s v).version = v := rfl

theorem version_node (s v : Nat) (p : StateVersion) :
    (StateVersion.node s v p).version = v := rfl

theorem state_base (s v : Nat) : (StateVersion.base s v).state = s := rfl

theorem state_node (s v : Nat) (p : StateVersion) :
    (StateVersion.node s v p).state = s := rfl

theorem chainVersions_base (s v : Nat) : chainVersions (.base s v) = [v] := rfl

theorem chainVersions_node (s v : Nat) (p : StateVersion) :
    chainVersions (.node s v p) = chainVersions p ++ [v] := by
  simp [chainVersions, StateVersion.chain, version_node]

theorem upVersions_append (a b : List Ev) :
    upVersions (a ++ b) = upVersions a ++ upVersions b := by
  induction a with
  | nil => rfl
  | cons e t ih => cases e <;> simp [upVersions, ih]

theorem asc_mem_le (n : StateVersion) (hA : n.isAsc = true) :
    ∀ w ∈ chainVersions n, w ≤ n.version := by
  induction n with
  | base s v => simp [chainVersions_base, StateVersion.version]
  | node s v p ih =>
    simp only [StateVersion.isAsc, Bool.and_eq_true, decide_eq_true_eq] at hA
    intro w hw
    rw [chainVersions_node] at hw
    rcases List.mem_append.1 hw with hw | hw
    · exact le_of_lt (lt_of_le_of_lt (ih hA.2 w hw) hA.1)
    · simp at hw
      simp [hw, version_node]

theorem asc_chain' (n : StateVersion) (hA : n.isAsc = true) :
    List.Chain' (· < ·) (chainVersions n) := by
  induction n with
  | base s v => simp [chainVersions_base]
  | node s v p ih =>
    simp only [StateVersion.isAsc, Bool.and_eq_true, decide_eq_true_eq] at hA
    rw [chainVersions_node]
    refine List.Chain'.append (ih hA.2) (by simp) ?_
    intro x hx y hy
    simp at hy
    subst hy
    have hx' := List.mem_of_mem_getLast? hx
    exact lt_of_le_of_lt (asc_mem_le p hA.2 x hx') hA.1

theorem asc_nodup (n : StateVersion) (hA : n.isAsc = true) :
    (chainVersions n).Nodup := by
  have h := (List.chain'_iff_pairwise).1 (asc_chain' n hA)
  exact h.imp (fun hab => Nat.ne_of_lt hab)

theorem upEventsFrom_self (p : StateVersion) : upEventsFrom p p.version = [] := by
  cases p with
  | base s v => rfl
  | node s v q => simp [upEventsFrom, StateVersion.version]

/-! Characterizations of `StateVersion.upgrade` runs. -/

theorem upgrade_none_ok (n : StateVersion) : ∀ db : DBState,
    ∃ db' evs, n.upgrade none db = (db', none) ∧ db'.log = db.log ++ evs ∧
      db'.warns = db.warns ∧ upVersions evs = chainVersions n := by
  induction n with
  | base s v =>
    intro db
    refine ⟨apply_upgrade (.base s v) db,
      [Ev.up s (lookupA db.installed s) v], rfl, ?_, rfl, ?_⟩
    · simp [apply_upgrade, state_base, version_base]
    · simp [upVersions, chainVersions_base]
  | node s v p ih =>
    intro db
    obtain ⟨db1, evs1, h1, hlog1, hw1, hup1⟩ := ih db
    refine ⟨apply_upgrade (.node s v p) db1,
      evs1 ++ [Ev.up s (lookupA db1.installed s) v], ?_, ?_, ?_, ?_⟩
    · simp only [StateVersion.upgrade]
      rw [h1]
    · simp [apply_upgrade, state_node, version_node, hlog1]
    · simp [apply_upgrade, hw1]
    · rw [upVersions_append, hup1, chainVersions_node]
      simp [upVersions]

theorem upgrade_mem_ok (n : StateVersion) : ∀ (v : Nat) (db : DBState),
    n.isAsc = true → v ∈ chainVersions n → v < n.version →
    ∃ db' evs, n.upgrade (some v) db = (db', none) ∧ db'.log = db.log ++ evs ∧
      db'.warns = db.warns ∧
      upVersions evs = (chainVersions n).filter (fun w => v < w) := by
  induction n with
  | base s v0 =>
    intro v db hA hmem hlt
    rw [chainVersions_base] at hmem
    rw [version_base] at hlt
    simp at hmem
    omega
  | node s ver p ih =>
    intro v db hA hmem hlt
    rw [version_node] at hlt
    simp only [StateVersion.isAsc, Bool.and_eq_true, decide_eq_true_eq] at hA
    have hmem' : v ∈ chainVersions p := by
      rw [chainVersions_node] at hmem
      rcases List.mem_append.1 hmem with h | h
      · exact h
      · simp at h; omega
    by_cases hvp : v < p.version
    · obtain ⟨db1, evs1, h1, hlog1, hw1, hup1⟩ := ih v db hA.2 hmem' hvp
      refine ⟨apply_upgrade (.node s ver p) db1,
        evs1 ++ [Ev.up s (lookupA db1.installed s) ver], ?_, ?_, ?_, ?_⟩
      · simp only [StateVersion.upgrade, version_node]
        rw [if_neg (by omega), if_neg (by omega), if_pos hvp, h1]
      · simp [apply_upgrade, state_node, version_node, hlog1]
      · simp [apply_upgrade, hw1]
      · rw [upVersions_append, hup1, chainVersions_node, List.filter_append]
        simp [upVersions, hlt]
    · have hv : v = p.version :=
        le_antisymm (asc_mem_le p hA.2 v hmem') (not_lt.1 hvp)
      refine ⟨apply_upgrade (.node s ver p) db,
        [Ev.up s (lookupA db.installed s) ver], ?_, ?_, rfl, ?_⟩
      · simp only [StateVersion.upgrade, version_node]
        rw [if_neg (by omega), if_neg (by omega), if_neg hvp]
      · simp [apply_upgrade, state_node, version_node]
      · rw [chainVersions_node, List.filter_append]
        have hfil : (chainVersions p).filter (fun w => v < w) = [] := by
          rw [List.filter_eq_nil_iff]
          intro w hw
          have := asc_mem_le p hA.2 w hw
          simp
          omega
        rw [hfil]
        simp [upVersions, hlt]

theorem upgrade_mem_spec (n : StateVersion) : ∀ (v : Nat) (db : DBState),
    n.isAsc = true → n.isSameState = true → v ∈ chainVersions n →
    v < n.version → lookupA db.installed n.state = some v →
    n.upgrade (some v) db =
      ({ installed := setA db.installed n.state n.version
         log := db.log ++ upEventsFrom n v
         warns := db.warns }, none) := by
  induction n with
  | base s v0 =>
    intro v db hA hS hmem hlt hdb
    rw [chainVersions_base] at hmem
    rw [version_base] at hlt
    simp at hmem
    omega
  | node s ver p ih =>
    intro v db hA hS hmem hlt hdb
    rw [version_node] at hlt
    rw [state_node] at hdb
    simp only [StateVersion.isAsc, Bool.and_eq_true, decide_eq_true_eq] at hA
    simp only [StateVersion.isSameState, Bool.and_eq_true, decide_eq_true_eq] at hS
    have hmem' : v ∈ chainVersions p := by
      rw [chainVersions_node] at hmem
      rcases List.mem_append.1 hmem with h | h
      · exact h
      · simp at h; omega
    by_cases hvp : v < p.version
    · have h1 := ih v db hA.2 hS.2 hmem' hvp (by rw [hS.1]; exact hdb)
      simp only [StateVersion.upgrade, version_node]
      rw [if_neg (by omega), if_neg (by omega), if_pos hvp, h1]
      simp only [apply_upgrade, state_node, version_node, hS.1, setA_setA,
        lookupA_setA_self, upEventsFrom, if_pos hlt, List.append_assoc]
    · have hv : v = p.version :=
        le_antisymm (asc_mem_le p hA.2 v hmem') (not_lt.1 hvp)
      subst hv
      simp only [StateVersion.upgrade, version_node]
      rw [if_neg (by omega), if_neg (by omega), if_neg hvp]
      simp only [apply_upgrade, state_node, version_node, hdb, upEventsFrom,
        if_pos hlt, upEventsFrom_self, List.nil_append]

theorem upgrade_log_mono (n : StateVersion) : ∀ (fv : Option Nat) (db : DBState),
    ∃ evs, (n.upgrade fv db).1.log = db.log ++ evs := by
  induction n with
  | base s v =>
    intro fv db
    cases fv with
    | none => exact ⟨[Ev.up s (lookupA db.installed s) v], rfl⟩
    | some w =>
      simp only [StateVersion.upgrade, version_base]
      by_cases h1 : v < w
      · rw [if_pos h1]; exact ⟨[], by simp⟩
      · rw [if_neg h1]
        by_cases h2 : w = v
        · rw [if_pos h2]; exact ⟨[], by simp⟩
        · rw [if_neg h2]; exact ⟨[], by simp⟩
  | node s v p ih =>
    intro fv db
    cases fv with
    | none =>
      simp only [StateVersion.upgrade]
      rcases hrec : StateVersion.upgrade p none db with ⟨db1, r⟩
      obtain ⟨evs1, hlog1⟩ := ih none db
      rw [hrec] at hlog1
      have hlog1' : db1.log = db.log ++ evs1 := hlog1
      cases r with
      | some e => exact ⟨evs1, hlog1'⟩
      | none =>
        exact ⟨evs1 ++ [Ev.up s (lookupA db1.installed s) v],
          by simp [apply_upgrade, state_node, version_node, hlog1']⟩
    | some w =>
      simp only [StateVersion.upgrade, version_node]
      by_cases h1 : v < w
      · rw [if_pos h1]; exact ⟨[], by simp⟩
      · rw [if_neg h1]
        by_cases h2 : w = v
        · rw [if_pos h2]; exact ⟨[], by simp⟩
        · rw [if_neg h2]
          by_cases h3 : w < p.version
          · rw [if_pos h3]
            rcases hrec : StateVersion.upgrade p (some w) db with ⟨db1, r⟩
            obtain ⟨evs1, hlog1⟩ := ih (some w) db
            rw [hrec] at hlog1
            have hlog1' : db1.log = db.log ++ evs1 := hlog1
            cases r with
            | some e => exact ⟨evs1, hlog1'⟩
            | none =>
              exact ⟨evs1 ++ [Ev.up s (lookupA db1.installed s) v],
                by simp [apply_upgrade, state_node, version_node, hlog1']⟩
          · rw [if_neg h3]
            exact ⟨[Ev.up s (lookupA db.installed s) v],
              by simp [apply_upgrade, state_node, version_node]⟩

/-! Characterizations of the Registry (`VersionManager`) operations. -/

theorem register_step_err_states (vm : VersionManager) (db : DBState)
    (ver : StateVersion) (vm2 : VersionManager) (db2 : DBState) (e : Err)
    (h : vm.register_step db ver = (vm2, db2, some e)) : vm2 = vm := by
  unfold VersionManager.register_step at h
  split at h
  · split at h
    · split at h
      · exact (congrArg Prod.fst h).symm
      · split at h
        · exact (congrArg Prod.fst h).symm
        · simp [Prod.ext_iff] at h
    · split at h
      · split at h
        · simp [Prod.ext_iff] at h
        · exact (congrArg Prod.fst h).symm
      · simp [Prod.ext_iff] at h
  · split at h
    · exact (congrArg Prod.fst h).symm
    · simp [Prod.ext_iff] at h

theorem register_step_log_mono (vm : VersionManager) (db : DBState)
    (ver : StateVersion) (vm2 : VersionManager) (db2 : DBState) (r : Option Err)
    (h : vm.register_step db ver = (vm2, db2, r)) :
    ∃ evs, db2.log = db.log ++ evs := by
  unfold VersionManager.register_step at h
  split at h
  · split at h
    · split at h
      · have hdb : db = db2 := congrArg (fun z => z.2.1) h
        exact ⟨[], by rw [← hdb]; simp⟩
      · rename_i cur hcv hlt pv hfind
        split at h
        · rename_i db' e' hup
          obtain ⟨evs, hevs⟩ := upgrade_log_mono ver (some pv.version) db
          rw [hup] at hevs
          have hdb : db' = db2 := congrArg (fun z => z.2.1) h
          exact ⟨evs, by rw [← hdb]; exact hevs⟩
        · rename_i db' hup
          obtain ⟨evs, hevs⟩ := upgrade_log_mono ver (some pv.version) db
          rw [hup] at hevs
          have hdb : db' = db2 := congrArg (fun z => z.2.1) h
          exact ⟨evs, by rw [← hdb]; exact hevs⟩
    · split at h
      · split at h
        · have hdb : { db with warns := db.warns + 1 } = db2 :=
            congrArg (fun z => z.2.1) h
          exact ⟨[], by rw [← hdb]; simp⟩
        · have hdb : db = db2 := congrArg (fun z => z.2.1) h
          exact ⟨[], by rw [← hdb]; simp⟩
      · have hdb : db = db2 := congrArg (fun z => z.2.1) h
        exact ⟨[], by rw [← hdb]; simp⟩
  · split at h
    · rename_i db' e' hup
      obtain ⟨evs, hevs⟩ := upgrade_log_mono ver none db
      rw [hup] at hevs
      have hdb : db' = db2 := congrArg (fun z => z.2.1) h
      exact ⟨evs, by rw [← hdb]; exact hevs⟩
    · rename_i db' hup
      obtain ⟨evs, hevs⟩ := upgrade_log_mono ver none db
      rw [hup] at hevs
      have hdb : db' = db2 := congrArg (fun z => z.2.1) h
      exact ⟨evs, by rw [← hdb]; exact hevs⟩

theorem register_versions_append (xs : List StateVersion) :
    ∀ (vm : VersionManager) (db : DBState) (ys : List StateVersion)
      (vm1 : VersionManager) (db1 : DBState),
    vm.register_versions db xs = (vm1, db1, none) →
    vm.register_versions db (xs ++ ys) = vm1.register_versions db1 ys := by
  induction xs with
  | nil =>
    intro vm db ys vm1 db1 h
    simp only [VersionManager.register_versions] at h
    obtain ⟨h1, h2, -⟩ : vm = vm1 ∧ db = db1 ∧ (none : Option Err) = none := by
      simpa [Prod.ext_iff] using h
    subst h1; subst h2
    simp
  | cons x xs ih =>
    intro vm db ys vm1 db1 h
    simp only [VersionManager.register_versions, List.cons_append] at h ⊢
    rcases hstep : vm.register_step db x with ⟨vm', db', r⟩
    rw [hstep] at h
    cases r with
    | some e => simp [Prod.ext_iff] at h
    | none => exact ih vm' db' ys vm1 db1 h

theorem register_versions_single_err (vm : VersionManager) (db : DBState)
    (ver : StateVersion) (vm2 : VersionManager) (db2 : DBState) (e : Err)
    (h : vm.register_versions db [ver] = (vm2, db2, some e)) :
    vm.register_step db ver = (vm2, db2, some e) := by
  simp only [VersionManager.register_versions] at h
  rcases hstep : vm.register_step db ver with ⟨vm', db', r⟩
  rw [hstep] at h
  cases r with
  | some e1 => exact h
  | none => simp [VersionManager.register_versions, Prod.ext_iff] at h

/-! The claims. -/

/-- Claim C1: for every predecessor chain (strictly ascending versions, same
state) with no installed version, `upgrade(Vn, absent)` returns normally and
applies each node's upgrade action exactly once, in strictly ascending version
order `V1, V2, ..., Vn` (the logged upgrade trace is exactly the chain's
version list, which is strictly sorted, so each appears exactly once). -/
theorem upgrade_absent_applies_whole_chain (n : StateVersion) (db : DBState)
    (hA : n.isAsc = true) (hS : n.isSameState = true) :
    (n.upgrade none db).2 = none ∧
    (∃ evs, (n.upgrade none db).1.log = db.log ++ evs ∧
      upVersions evs = chainVersions n) ∧
    List.Chain' (· < ·) (chainVersions n) ∧
    (∀ w ∈ chainVersions n, (chainVersions n).count w = 1) := by
  obtain ⟨db', evs, hEq, hlog, hw, hup⟩ := upgrade_none_ok n db
  refine ⟨by rw [hEq], ⟨evs, by rw [hEq]; exact hlog, hup⟩, asc_chain' n hA, ?_⟩
  intro w hwmem
  exact List.count_eq_one_of_mem (asc_nodup n hA) hwmem

/-- Witness for C1 on the spec's chain 1 ← 2 ← 3 over an empty database. -/
theorem upgrade_absent_applies_whole_chain_witness :
    ((StateVersion.node 0 3 (.node 0 2 (.base 0 1))).upgrade none ⟨[], [], 0⟩).2 =
      none :=
  (upgrade_absent_applies_whole_chain (.node 0 3 (.node 0 2 (.base 0 1)))
    ⟨[], [], 0⟩ (by decide) (by decide)).1

/-- Claim C2: on a chain containing the installed version `v` strictly below
the target's version, `upgrade(node, v)` returns normally and applies exactly
the upgrade actions of the chain nodes of version strictly greater than `v`,
in ascending order (the trace is the chain's version list filtered to the
versions above `v`, strictly sorted); and with `v` equal to the target's
version the call is a no-op returning the world untouched. -/
theorem upgrade_from_installed_applies_strictly_newer (n : StateVersion)
    (v : Nat) (db : DBState) (hA : n.isAsc = true) (hS : n.isSameState = true)
    (hmem : v ∈ chainVersions n) :
    (v < n.version →
      (n.upgrade (some v) db).2 = none ∧
      (∃ evs, (n.upgrade (some v) db).1.log = db.log ++ evs ∧
        upVersions evs = (chainVersions n).filter (fun w => v < w)) ∧
      List.Chain' (· < ·) ((chainVersions n).filter (fun w => v < w))) ∧
    (v = n.version → n.upgrade (some v) db = (db, none)) := by
  constructor
  · intro hlt
    obtain ⟨db', evs, hEq, hlog, hw, hup⟩ := upgrade_mem_ok n v db hA hmem hlt
    refine ⟨by rw [hEq], ⟨evs, by rw [hEq]; exact hlog, hup⟩, ?_⟩
    exact (List.chain'_iff_pairwise).2
      (((List.chain'_iff_pairwise).1 (asc_chain' n hA)).sublist
        (List.filter_sublist _))
  · intro heq
    subst heq
    cases n with
    | base s ver =>
      simp only [StateVersion.upgrade, version_base]
      rw [if_neg (lt_irrefl ver)]
      simp
    | node s ver p =>
      simp only [StateVersion.upgrade, version_node]
      rw [if_neg (lt_irrefl ver)]
      simp

/-- Witness for C2: `upgrade(V3, 1)` on the chain 1 ← 2 ← 3. -/
theorem upgrade_from_installed_applies_strictly_newer_witness :
    ((StateVersion.node 0 3 (.node 0 2 (.base 0 1))).upgrade (some 1)
      ⟨[(0, 1)], [], 0⟩).2 = none :=
  ((upgrade_from_installed_applies_strictly_newer
    (.node 0 3 (.node 0 2 (.base 0 1))) 1 ⟨[(0, 1)], [], 0⟩
    (by decide) (by decide) (by decide)).1 (by decide)).1

/-- Claim C3: upgrading to a version below the installed one raises the
lesser-version error (the spec's `UpgradeToLesserVersionError`) and performs
no action at all: the world is returned untouched. -/
theorem upgrade_to_lesser_version_fails (n : StateVersion) (v : Nat)
    (db : DBState) (h : n.version < v) :
    n.upgrade (some v) db = (db, some Err.attributeErrorLesserVersion) := by
  cases n with
  | base s ver =>
    have h' : ver < v := h
    simp only [StateVersion.upgrade, version_base]
    rw [if_pos h']
  | node s ver p =>
    have h' : ver < v := h
    simp only [StateVersion.upgrade, version_node]
    rw [if_pos h']

/-- Witness for C3: `upgrade(V1, 2)` fails with the lesser-version error. -/
theorem upgrade_to_lesser_version_fails_witness :
    (StateVersion.base 0 1).upgrade (some 2) ⟨[(0, 2)], [], 0⟩ =
      (⟨[(0, 2)], [], 0⟩, some Err.attributeErrorLesserVersion) :=
  upgrade_to_lesser_version_fails (.base 0 1) 2 ⟨[(0, 2)], [], 0⟩ (by decide)

/-- Claim C4 counterexample: on a base node of version 2 with installed
version 1, `upgrade` fails with the `TypeError` from comparing the installed
version against the absent previous version — not with
`VersionNotFoundError` as the claim states. -/
theorem base_upgrade_lower_error_counterexample :
    (StateVersion.base 0 2).upgrade (some 1) ⟨[(0, 1)], [], 0⟩ =
      (⟨[(0, 1)], [], 0⟩, some Err.typeErrorNoneComparison) ∧
    some Err.typeErrorNoneComparison ≠ some Err.versionNotFoundError := by
  decide

/-- Claim C4 amended: for every base node and every present installed version
strictly below the node's version, `upgrade(node, v)` fails — with the
`TypeError` produced by evaluating `from_version < cls.previous_version`
against the absent previous version, not with `VersionNotFoundError` — and
applies no upgrade action (the world is returned untouched). -/
theorem base_upgrade_lower_raises_typeError (s ver v : Nat) (db : DBState)
    (h : v < ver) :
    (StateVersion.base s ver).upgrade (some v) db =
      (db, some Err.typeErrorNoneComparison) := by
  simp only [StateVersion.upgrade, version_base]
  rw [if_neg (by omega), if_neg (by omega)]

/-- Witness for the amended C4 at a base node of version 2 and installed 1. -/
theorem base_upgrade_lower_raises_typeError_witness :
    (StateVersion.base 1 2).upgrade (some 1) ⟨[(1, 1)], [], 0⟩ =
      (⟨[(1, 1)], [], 0⟩, some Err.typeErrorNoneComparison) :=
  base_upgrade_lower_raises_typeError 1 2 1 ⟨[(1, 1)], [], 0⟩ (by decide)

/-- Claim C5 counterexample: on the chain 1 ← 3 with installed version 2
(present, strictly below the target's version 3, marker equal to 2), the call
reaches and applies the target's own upgrade action on top of installed
version 2, yet the target's immediate predecessor's version is 1 ≠ 2 — so the
action is not applied on top of the predecessor's version as claimed. -/
theorem upgrade_not_on_predecessor_counterexample :
    (StateVersion.node 0 3 (.base 0 1)).upgrade (some 2) ⟨[(0, 2)], [], 0⟩ =
      (⟨[(0, 3)], [Ev.up 0 (some 2) 3], 0⟩, none) ∧
    (StateVersion.node 0 3 (.base 0 1)).previous.map StateVersion.version =
      some 1 ∧
    (2 : Nat) ≠ 1 := by
  decide

/-- Claim C5 amended: when additionally the installed version `v` occurs among
the chain's versions (which the Registry guarantees by locating `v` through
`find_previous_version` before calling `upgrade`) and the storage marker
reads `v`, the call succeeds and its trace is `upEventsFrom n v`, whose every
event applies a node's action with the marker at exactly that node's immediate
predecessor's version; in particular the last event — the target node's own
action — runs with the marker at `node.previous.version`. -/
theorem upgrade_applies_each_action_on_its_predecessor (n : StateVersion)
    (v : Nat) (db : DBState) (hA : n.isAsc = true) (hS : n.isSameState = true)
    (hmem : v ∈ chainVersions n) (hlt : v < n.version)
    (hdb : lookupA db.installed n.state = some v) :
    n.upgrade (some v) db =
      ({ installed := setA db.installed n.state n.version
         log := db.log ++ upEventsFrom n v
         warns := db.warns }, none) ∧
    (upEventsFrom n v).getLast? =
      some (Ev.up n.state (n.previous.map StateVersion.version) n.version) := by
  refine ⟨upgrade_mem_spec n v db hA hS hmem hlt hdb, ?_⟩
  cases n with
  | base s ver =>
    rw [chainVersions_base] at hmem
    rw [version_base] at hlt
    simp at hmem
    omega
  | node s ver p =>
    rw [version_node] at hlt
    simp only [upEventsFrom, if_pos hlt]
    simp [StateVersion.previous, state_node, version_node]

/-- Witness for the amended C5: `upgrade(V3, 1)` on the chain 1 ← 2 ← 3 with
marker 1; the last event applies V3 on top of version 2 = V2's version. -/
theorem upgrade_applies_each_action_on_its_predecessor_witness :
    (upEventsFrom (StateVersion.node 0 3 (.node 0 2 (.base 0 1))) 1).getLast? =
      some (Ev.up 0 (some 2) 3) :=
  (upgrade_applies_each_action_on_its_predecessor
    (.node 0 3 (.node 0 2 (.base 0 1))) 1 ⟨[(0, 1)], [], 0⟩
    (by decide) (by decide) (by decide) (by decide) (by decide)).2

/-- Claim C6: `rollback(node)` applies exactly one action — the node's own
rollback action — and returns `node.previous`; on a base version the returned
value is `none`, signaling the state is fully uninstalled. -/
theorem rollback_applies_own_action_returns_previous (n : StateVersion)
    (db : DBState) :
    (n.rollback db).1.log = db.log ++ [Ev.down n.state n.version] ∧
    (n.rollback db).2 = n.previous ∧
    (∀ (s ver : Nat) (db' : DBState),
      ((StateVersion.base s ver).rollback db').2 = none) := by
  exact ⟨rfl, rfl, fun s ver db' => rfl⟩

/-- Claim C7: `VersionManager.rollback` on a state with no active registration
fails with the `KeyError` from `self._states[state]` (the spec's
`UnregisteredStateError`), leaving the state-to-node map — and the world —
unchanged. -/
theorem rollback_unregistered_state_fails (rbw : Bool)
    (sts : List (Nat × StateVersion)) (db : DBState) (st : Nat)
    (h : lookupA sts st = none) :
    VersionManager.rollback ⟨rbw, sts⟩ db st =
      (⟨rbw, sts⟩, db, some Err.keyError) := by
  simp [VersionManager.rollback, h]

/-- Witness for C7 on an empty Registry. -/
theorem rollback_unregistered_state_fails_witness :
    VersionManager.rollback ⟨true, []⟩ ⟨[], [], 0⟩ 5 =
      (⟨true, []⟩, ⟨[], [], 0⟩, some Err.keyError) :=
  rollback_unregistered_state_fails true [] ⟨[], [], 0⟩ 5 rfl

/-- Claim C8: registering a node whose version is strictly below the
storage-reported installed version either emits one non-fatal warning
(rollback-warnings mode, the default) and records the node, or raises
`RollbackError` (the spec's `RollbackRequiredError`); in both cases the
action log — the schema — is untouched. -/
theorem register_lower_version_warns_or_raises
    (sts : List (Nat × StateVersion)) (db : DBState) (ver : StateVersion)
    (cur : Nat) (hdb : check_version db ver.state = some cur)
    (hlt : ver.version < cur) :
    VersionManager.register_versions ⟨true, sts⟩ db [ver] =
      (⟨true, setA sts ver.state ver⟩, { db with warns := db.warns + 1 },
        none) ∧
    VersionManager.register_versions ⟨false, sts⟩ db [ver] =
      (⟨false, sts⟩, db, some Err.rollbackError) := by
  constructor
  · simp only [VersionManager.register_versions, VersionManager.register_step,
      hdb]
    rw [if_neg (by omega), if_pos hlt]
    simp [VersionManager.register_versions]
  · simp only [VersionManager.register_versions, VersionManager.register_step,
      hdb]
    rw [if_neg (by omega), if_pos hlt]
    simp [VersionManager.register_versions]

/-- Witness for C8: registering version 1 while version 7 is installed. -/
theorem register_lower_version_warns_or_raises_witness :
    VersionManager.register_versions ⟨false, []⟩ ⟨[(0, 7)], [], 0⟩
      [.base 0 1] = (⟨false, []⟩, ⟨[(0, 7)], [], 0⟩,
        some Err.rollbackError) :=
  (register_lower_version_warns_or_raises [] ⟨[(0, 7)], [], 0⟩ (.base 0 1) 7
    rfl (by decide)).2

/-- Claim C9: `register_versions` processes the supplied nodes in the order
given; when node `ver` fails after the prefix `vs1` succeeded, the whole call
stops there and returns exactly the failing step's outcome: the remaining
nodes are untouched, the Registry map is exactly the one the successful prefix
built (the failing step did not alter it), and the action log extends the
prefix's log — earlier nodes' applied actions and registrations remain in
place, with no compensation. -/
theorem register_failure_keeps_prior_effects (vm vm1 vm2 : VersionManager)
    (db db1 db2 : DBState) (vs1 vs2 : List StateVersion) (ver : StateVersion)
    (e : Err) (h1 : vm.register_versions db vs1 = (vm1, db1, none))
    (h2 : vm1.register_versions db1 [ver] = (vm2, db2, some e)) :
    vm.register_versions db (vs1 ++ ver :: vs2) = (vm2, db2, some e) ∧
    vm2 = vm1 ∧ (∃ evs, db2.log = db1.log ++ evs) := by
  have hstep := register_versions_single_err vm1 db1 ver vm2 db2 e h2
  refine ⟨?_, register_step_err_states vm1 db1 ver vm2 db2 e hstep,
    register_step_log_mono vm1 db1 ver vm2 db2 (some e) hstep⟩
  rw [register_versions_append vs1 vm db (ver :: vs2) vm1 db1 h1]
  simp only [VersionManager.register_versions]
  rw [hstep]

/-- Witness for C9: state 0 installs fresh, then registering version 3 for
state 1 (installed at 7, warnings disabled) fails, leaving state 0's applied
action and registration in place and state 2's node unprocessed. -/
theorem register_failure_keeps_prior_effects_witness :
    VersionManager.register_versions ⟨false, []⟩ ⟨[(1, 7)], [], 0⟩
      ([.base 0 1] ++ StateVersion.base 1 3 :: [.base 2 1]) =
      (⟨false, [(0, .base 0 1)]⟩,
        ⟨[(1, 7), (0, 1)], [Ev.up 0 none 1], 0⟩, some Err.rollbackError) :=
  (register_failure_keeps_prior_effects ⟨false, []⟩
    ⟨false, [(0, .base 0 1)]⟩ ⟨false, [(0, .base 0 1)]⟩
    ⟨[(1, 7)], [], 0⟩ ⟨[(1, 7), (0, 1)], [Ev.up 0 none 1], 0⟩
    ⟨[(1, 7), (0, 1)], [Ev.up 0 none 1], 0⟩
    [.base 0 1] [.base 2 1] (.base 1 3) Err.rollbackError
    (by decide) (by decide)).1

/-- Claim C10: constructing a `VersionManager` with the `versions` argument
left at its default `None` always raises `TypeError` (the constructor
unconditionally unpacks `versions` into `register_versions`), while any
supplied iterable — including the empty one — constructs the manager. -/
theorem versionmanager_init_requires_versions :
    (∀ (rbw : Bool) (db : DBState),
      VersionManager.init rbw none db =
        (none, db, some Err.typeErrorNoneUnpack)) ∧
    (∀ (rbw : Bool) (db : DBState),
      VersionManager.init rbw (some []) db = (some ⟨rbw, []⟩, db, none)) :=
  ⟨fun rbw db => rfl, fun rbw db => rfl⟩

end DBVersioning
